import Mathlib

/-!
Verification of the cache-key derivation subsystem of `pkg/utils/utils.go`
(mosdns). The key-derivation entry points `GetMsgKey`,
`GetMsgKeyWithBytesSalt` and `GetMsgKeyWithInt64Salt`, the zero-copy
string conversion `BytesToStringUnsafe`, and the string helper
`SplitString2` are embedded shallowly below; Go byte slices become
`List Nat` (each element a byte value), Go strings become byte or
character lists, and the `(value, error)` return convention becomes
`Except`.
-/

namespace Mosdns

instance {ε α : Type} [DecidableEq ε] [DecidableEq α] : DecidableEq (Except ε α) :=
  fun a b =>
    match a, b with
    | Except.error e1, Except.error e2 =>
      if h : e1 = e2 then isTrue (by rw [h]) else isFalse (by simp [h])
    | Except.error _, Except.ok _ => isFalse (by simp)
    | Except.ok _, Except.error _ => isFalse (by simp)
    | Except.ok v1, Except.ok v2 =>
      if h : v1 = v2 then isTrue (by rw [h]) else isFalse (by simp [h])

/-- A DNS message (`dns.Msg` of the external miekg/dns library) is opaque to
this package: the only operation the key-derivation code performs on it is
wire serialization (`Pack`), so a message is modelled by the result of that
serialization — either an encoding error or the wire bytes. The pooled
serialization path packs the same message and therefore yields the same
bytes. -/
structure Msg where
  pack : Except String (List Nat)
deriving Repr, DecidableEq

/-- A Go string value. `owned` holds its bytes itself; `pooledAlias` is a
string whose backing memory is pooled buffer `bid`, so its content changes
when that buffer is overwritten after release. -/
inductive GoString where
  | owned (bytes : List Nat)
  | pooledAlias (bid : Nat)
deriving Repr, DecidableEq

/-- The byte content of a Go string under a given pool heap. -/
def readString (heap : List (List Nat)) : GoString → List Nat
  | GoString.owned bs => bs
  | GoString.pooledAlias bid => heap.getD bid []

/-- State of the buffer pool (`pkg/pool`): the contents of every pool
buffer, the ids currently free for checkout, and the number of buffers
checked out but not yet released. -/
structure PoolState where
  heap : List (List Nat)
  free : List Nat
  outstanding : Nat
deriving Repr, DecidableEq

/-- Check a buffer out of the pool: reuse a free buffer if one exists,
otherwise allocate a fresh one. Returns the buffer id and the new state. -/
def checkout (st : PoolState) : Nat × PoolState :=
  match st.free with
  | [] => (st.heap.length, ⟨st.heap ++ [[]], [], st.outstanding + 1⟩)
  | i :: rest => (i, ⟨st.heap, rest, st.outstanding + 1⟩)

/-- Return a checked-out buffer to the pool (`buf.Release()`). -/
def release (st : PoolState) (bid : Nat) : PoolState :=
  ⟨st.heap, bid :: st.free, st.outstanding - 1⟩

/-- Overwrite the content of pool buffer `bid`. -/
def writeBuf (st : PoolState) (bid : Nat) (content : List Nat) : PoolState :=
  ⟨st.heap.set bid content, st.free, st.outstanding⟩

/-- Modelled from the spec: `pool.PackBuffer` (the `pkg/pool` package is not
part of this fragment). It checks a buffer out of the pool, serializes the
message into it, and on a serialization failure releases the buffer before
propagating the error, so no pooled buffer is leaked. On success it returns
the wire bytes together with the id of the pooled buffer backing them. -/
def PackBuffer (m : Msg) (st : PoolState) :
    Except String (List Nat × Nat) × PoolState :=
  let cs := checkout st
  match m.pack with
  | Except.error e => (Except.error e, release cs.2 cs.1)
  | Except.ok wire => (Except.ok (wire, cs.1), writeBuf cs.2 cs.1 wire)

/-- `BytesToStringUnsafe` converts a byte slice to a string without copying:
the returned string aliases the argument's memory. Its only caller here,
`GetMsgKey`, applies it to a freshly allocated non-pooled buffer that is
never mutated or reused afterwards, so the alias has the same observable
content as an owned string; only pooled buffers (tracked in
`PoolState.heap`) can be overwritten after release. -/
def BytesToStringUnsafe (b : List Nat) : GoString :=
  GoString.owned b

/-- `GetMsgKey` packs `m` into an owned (non-pooled) buffer and overwrites
its first two bytes (the transaction id) with the big-endian encoding of the
16-bit salt: `wireMsg[0] = byte(salt >> 8); wireMsg[1] = byte(salt)`. The
buffer is returned as a string via `BytesToStringUnsafe`, with nothing
appended. -/
def GetMsgKey (m : Msg) (salt : Nat) : Except String GoString :=
  match m.pack with
  | Except.error e => Except.error e
  | Except.ok wireMsg =>
    Except.ok (BytesToStringUnsafe
      ((wireMsg.set 0 (salt / 256 % 256)).set 1 (salt % 256)))

/-- `GetMsgKeyWithBytesSalt` packs `m` through the pooled path, zeroes the
first two bytes (the transaction id) in place in the pooled buffer, then
builds the key with a `strings.Builder` pre-sized to
`len(wireMsg) + len(salt)`: the builder copies the wire bytes and the salt
into a fresh buffer of its own, so `sb.String()` is an owned string, and the
pooled buffer is released (the deferred `buf.Release()`) before returning. -/
def GetMsgKeyWithBytesSalt (m : Msg) (salt : List Nat) (st : PoolState) :
    Except String GoString × PoolState :=
  match PackBuffer m st with
  | (Except.error e, st1) => (Except.error e, st1)
  | (Except.ok (wire, bid), st1) =>
    let wire1 := (wire.set 0 0).set 1 0
    let st2 := writeBuf st1 bid wire1
    let key := GoString.owned (wire1 ++ salt)
    (Except.ok key, release st2 bid)

/-- Big-endian 8-byte encoding of an unsigned 64-bit value
(`binary.BigEndian.PutUint64` of the Go standard library). -/
def putUint64BE (v : Nat) : List Nat :=
  [v / 2 ^ 56 % 256, v / 2 ^ 48 % 256, v / 2 ^ 40 % 256, v / 2 ^ 32 % 256,
   v / 2 ^ 24 % 256, v / 2 ^ 16 % 256, v / 2 ^ 8 % 256, v % 256]

/-- `GetMsgKeyWithInt64Salt` encodes `uint64(salt)` as 8 big-endian bytes
and delegates to `GetMsgKeyWithBytesSalt`. The `int64 → uint64` conversion
is reduction modulo `2 ^ 64`. -/
def GetMsgKeyWithInt64Salt (m : Msg) (salt : Int) (st : PoolState) :
    Except String GoString × PoolState :=
  GetMsgKeyWithBytesSalt m (putUint64BE (Int.toNat (salt % (2 ^ 64 : Int)))) st

/-- Index of the first occurrence of `pat` as a contiguous substring of `s`
(`strings.Index`), `none` when there is no occurrence. -/
def strIndex : List Char → List Char → Option Nat
  | [], pat => if pat.isPrefixOf [] then some 0 else none
  | c :: t, pat =>
    if pat.isPrefixOf (c :: t) then some 0
    else (strIndex t pat).map (· + 1)

/-- `SplitString2` splits `s` into the parts before and after the first
occurrence of `symbol`. An empty `symbol` yields `("", s, true)`; when
`symbol` does not occur the result is `("", "", false)`. -/
def SplitString2 (s symbol : List Char) : List Char × List Char × Bool :=
  if symbol.length = 0 then ([], s, true)
  else
    match strIndex s symbol with
    | some i => (s.take i, s.drop (i + symbol.length), true)
    | none => ([], [], false)

/-- A concrete message whose wire encoding is `[0x12, 0x34, 0x00, 0x00]`
(id `0x1234`, empty body). -/
def msg1234 : Msg := ⟨Except.ok [0x12, 0x34, 0x00, 0x00]⟩

/-- A message identical to `msg1234` except for its transaction id. -/
def msgABCD : Msg := ⟨Except.ok [0xAB, 0xCD, 0x00, 0x00]⟩

/-- A message that cannot be encoded to wire format. -/
def badMsg : Msg := ⟨Except.error "packErr"⟩

/-- A pool with no buffers allocated yet. -/
def emptyPool : PoolState := ⟨[], [], 0⟩

theorem checkout_outstanding (st : PoolState) :
    (checkout st).2.outstanding = st.outstanding + 1 := by
  rcases st with ⟨h, f, o⟩
  cases f <;> rfl

theorem getMsgKeyWithBytesSalt_fst_ok (m : Msg) (w : List Nat)
    (h : m.pack = Except.ok w) (salt : List Nat) (st : PoolState) :
    (GetMsgKeyWithBytesSalt m salt st).1 =
      Except.ok (GoString.owned ((w.set 0 0).set 1 0 ++ salt)) := by
  simp [GetMsgKeyWithBytesSalt, PackBuffer, h]

theorem getMsgKeyWithBytesSalt_error (m : Msg) (e : String)
    (h : m.pack = Except.error e) (salt : List Nat) (st : PoolState) :
    GetMsgKeyWithBytesSalt m salt st =
      (Except.error e, release (checkout st).2 (checkout st).1) := by
  simp [GetMsgKeyWithBytesSalt, PackBuffer, h]

theorem set01_eq_of_tail_eq (w1 w2 : List Nat) (a b : Nat)
    (hlen : w1.length = w2.length) (hbody : w1.drop 2 = w2.drop 2) :
    (w1.set 0 a).set 1 b = (w2.set 0 a).set 1 b := by
  cases w1 with
  | nil =>
    cases w2 with
    | nil => rfl
    | cons y t2 => simp at hlen
  | cons x t1 =>
    cases w2 with
    | nil => simp at hlen
    | cons y t2 =>
      cases t1 with
      | nil =>
        cases t2 with
        | nil => rfl
        | cons z t => simp at hlen
      | cons x2 t1' =>
        cases t2 with
        | nil => simp at hlen
        | cons y2 t2' =>
          simp only [List.drop_succ_cons, List.drop_zero] at hbody
          subst hbody
          rfl

/-- C1: for messages `m1`, `m2` whose wire serializations are byte-identical
except in the first two bytes (the transaction id), and a fixed salt, both
`GetMsgKey` (with the same 16-bit salt) and `GetMsgKeyWithBytesSalt` (with
the same byte salt, from any pool states) return identical key strings. -/
theorem msgKey_txid_independent (m1 m2 : Msg) (w1 w2 : List Nat)
    (h1 : Msg.pack m1 = Except.ok w1) (h2 : Msg.pack m2 = Except.ok w2)
    (_hlen2 : 2 ≤ w1.length) (hlen : w1.length = w2.length)
    (hbody : w1.drop 2 = w2.drop 2)
    (salt : Nat) (bsalt : List Nat) (st1 st2 : PoolState) :
    GetMsgKey m1 salt = GetMsgKey m2 salt ∧
    (GetMsgKeyWithBytesSalt m1 bsalt st1).1 =
      (GetMsgKeyWithBytesSalt m2 bsalt st2).1 := by
  constructor
  · simp only [GetMsgKey, BytesToStringUnsafe, h1, h2]
    rw [set01_eq_of_tail_eq w1 w2 _ _ hlen hbody]
  · rw [getMsgKeyWithBytesSalt_fst_ok m1 w1 h1 bsalt st1,
      getMsgKeyWithBytesSalt_fst_ok m2 w2 h2 bsalt st2,
      set01_eq_of_tail_eq w1 w2 0 0 hlen hbody]

/-- Witness for C1 at the concrete pair `msg1234`, `msgABCD` (identical
except for the id), salt `7` and byte salt `[9]`. -/
theorem msgKey_txid_independent_witness :
    (Msg.pack msg1234 = Except.ok [0x12, 0x34, 0x00, 0x00] ∧
     Msg.pack msgABCD = Except.ok [0xAB, 0xCD, 0x00, 0x00] ∧
     2 ≤ ([0x12, 0x34, 0x00, 0x00] : List Nat).length ∧
     ([0x12, 0x34, 0x00, 0x00] : List Nat).length =
       ([0xAB, 0xCD, 0x00, 0x00] : List Nat).length ∧
     ([0x12, 0x34, 0x00, 0x00] : List Nat).drop 2 =
       ([0xAB, 0xCD, 0x00, 0x00] : List Nat).drop 2) ∧
    (GetMsgKey msg1234 7 = GetMsgKey msgABCD 7 ∧
     (GetMsgKeyWithBytesSalt msg1234 [9] emptyPool).1 =
       (GetMsgKeyWithBytesSalt msgABCD [9] emptyPool).1) :=
  ⟨⟨rfl, rfl, by decide, by decide, by decide⟩,
   msgKey_txid_independent msg1234 msgABCD _ _ rfl rfl (by decide) (by decide)
     (by decide) 7 [9] emptyPool emptyPool⟩

/-- C2: `GetMsgKeyWithInt64Salt` on salt `N` returns exactly the same
(key, error) result as `GetMsgKeyWithBytesSalt` on the 8-byte big-endian
encoding of `N` taken as an unsigned 64-bit value. -/
theorem msgKeyInt64_delegates_to_bytesSalt (m : Msg) (salt : Int)
    (st : PoolState) :
    GetMsgKeyWithInt64Salt m salt st =
      GetMsgKeyWithBytesSalt m
        (putUint64BE (Int.toNat (salt % (2 ^ 64 : Int)))) st := rfl

/-- C3: on a message whose wire encoding is exactly
`[0x12, 0x34, 0x00, 0x00]` and salt bytes `[0xFF]`,
`GetMsgKeyWithBytesSalt` returns (from any pool state) the 5-byte key
`[0x00, 0x00, 0x00, 0x00, 0xFF]` — id zeroed, body preserved, salt
appended — and no error. -/
theorem msgKeyBytesSalt_concrete_scenario (st : PoolState) :
    (GetMsgKeyWithBytesSalt msg1234 [0xFF] st).1 =
      Except.ok (GoString.owned [0x00, 0x00, 0x00, 0x00, 0xFF]) := by
  rw [getMsgKeyWithBytesSalt_fst_ok msg1234 [0x12, 0x34, 0x00, 0x00] rfl
    [0xFF] st]
  rfl

/-- C7: key derivation is deterministic — the same message and salt, with a
fresh serialization and any pool state each time, yield byte-identical
keys; each call's key depends only on its own inputs. -/
theorem msgKey_deterministic (m : Msg) (salt : Nat) (bs : List Nat)
    (st1 st2 : PoolState) :
    GetMsgKey m salt = GetMsgKey m salt ∧
    (GetMsgKeyWithBytesSalt m bs st1).1 =
      (GetMsgKeyWithBytesSalt m bs st2).1 := by
  refine ⟨rfl, ?_⟩
  cases h : m.pack with
  | error e =>
    rw [getMsgKeyWithBytesSalt_error m e h bs st1,
      getMsgKeyWithBytesSalt_error m e h bs st2]
  | ok w =>
    rw [getMsgKeyWithBytesSalt_fst_ok m w h bs st1,
      getMsgKeyWithBytesSalt_fst_ok m w h bs st2]

/-- C4: for a message that serializes to wire `w` with `2 ≤ w.length` and a
16-bit salt, `GetMsgKey` returns without error a key whose bytes are exactly
`[salt >> 8, salt & 0xFF]` followed by bytes 2..end of `w`, with nothing
appended; in particular the key's length equals the wire length. -/
theorem getMsgKey_content (m : Msg) (w : List Nat) (salt : Nat)
    (h : Msg.pack m = Except.ok w) (hw : 2 ≤ w.length) (hs : salt < 65536) :
    GetMsgKey m salt =
      Except.ok (GoString.owned (salt / 256 :: salt % 256 :: w.drop 2)) ∧
    (salt / 256 :: salt % 256 :: w.drop 2).length = w.length := by
  have hdiv : salt / 256 < 256 := Nat.div_lt_of_lt_mul (by omega)
  have hmod : salt / 256 % 256 = salt / 256 := Nat.mod_eq_of_lt hdiv
  cases w with
  | nil => simp at hw
  | cons a t0 =>
    cases t0 with
    | nil => simp at hw
    | cons b t =>
      constructor
      · simp [GetMsgKey, BytesToStringUnsafe, h, hmod]
      · simp

/-- Witness for C4 at `msg1234` with salt `0xABCD`. -/
theorem getMsgKey_content_witness :
    (Msg.pack msg1234 = Except.ok [0x12, 0x34, 0x00, 0x00] ∧
     2 ≤ ([0x12, 0x34, 0x00, 0x00] : List Nat).length ∧ 0xABCD < 65536) ∧
    (GetMsgKey msg1234 0xABCD =
      Except.ok (GoString.owned
        (0xABCD / 256 :: 0xABCD % 256 ::
          ([0x12, 0x34, 0x00, 0x00] : List Nat).drop 2)) ∧
     (0xABCD / 256 :: 0xABCD % 256 ::
        ([0x12, 0x34, 0x00, 0x00] : List Nat).drop 2).length =
       ([0x12, 0x34, 0x00, 0x00] : List Nat).length) :=
  ⟨⟨rfl, by decide, by decide⟩,
   getMsgKey_content msg1234 [0x12, 0x34, 0x00, 0x00] 0xABCD rfl (by decide)
     (by decide)⟩

/-- C5: when serialization fails with error `e`, every entry point
(`GetMsgKey`, `GetMsgKeyWithBytesSalt`, `GetMsgKeyWithInt64Salt`) returns
the serializer's error `e` and no key, and the pooled path leaks no buffer:
the number of outstanding pool buffers is unchanged, because the buffer
checked out before the failure is released. -/
theorem msgKey_error_propagation (m : Msg) (e : String)
    (h : Msg.pack m = Except.error e) (salt : Nat) (bs : List Nat) (n : Int)
    (st1 st2 : PoolState) :
    GetMsgKey m salt = Except.error e ∧
    (GetMsgKeyWithBytesSalt m bs st1).1 = Except.error e ∧
    ((GetMsgKeyWithBytesSalt m bs st1).2).outstanding = st1.outstanding ∧
    (GetMsgKeyWithInt64Salt m n st2).1 = Except.error e ∧
    ((GetMsgKeyWithInt64Salt m n st2).2).outstanding = st2.outstanding := by
  have k1 := getMsgKeyWithBytesSalt_error m e h bs st1
  have k2 := getMsgKeyWithBytesSalt_error m e h
    (putUint64BE (Int.toNat (n % (2 ^ 64 : Int)))) st2
  refine ⟨by simp [GetMsgKey, h], ?_, ?_, ?_, ?_⟩
  · rw [k1]
  · rw [k1]
    simp [release, checkout_outstanding]
  · simp only [GetMsgKeyWithInt64Salt]
    rw [k2]
  · simp only [GetMsgKeyWithInt64Salt]
    rw [k2]
    simp [release, checkout_outstanding]

/-- Witness for C5 at the unencodable message `badMsg`. -/
theorem msgKey_error_propagation_witness :
    Msg.pack badMsg = Except.error "packErr" ∧
    (GetMsgKey badMsg 3 = Except.error "packErr" ∧
     (GetMsgKeyWithBytesSalt badMsg [1] emptyPool).1 =
       Except.error "packErr" ∧
     ((GetMsgKeyWithBytesSalt badMsg [1] emptyPool).2).outstanding =
       emptyPool.outstanding ∧
     (GetMsgKeyWithInt64Salt badMsg 5 emptyPool).1 =
       Except.error "packErr" ∧
     ((GetMsgKeyWithInt64Salt badMsg 5 emptyPool).2).outstanding =
       emptyPool.outstanding) :=
  ⟨rfl, msgKey_error_propagation badMsg "packErr" rfl 3 [1] 5 emptyPool
    emptyPool⟩

/-- C9: for a message serializing to wire `w` with `2 ≤ w.length`,
`GetMsgKey` with salt `0` and `GetMsgKeyWithBytesSalt` with empty salt
(from any pool state) return keys of identical byte content — the wire with
its first two bytes zeroed and nothing appended. In this embedding the
owned and pooled serialization paths pack the same bytes by
construction. -/
theorem msgKey_zero_salt_agree (m : Msg) (w : List Nat)
    (h : Msg.pack m = Except.ok w) (_hw : 2 ≤ w.length) (st : PoolState) :
    (GetMsgKeyWithBytesSalt m [] st).1 = GetMsgKey m 0 ∧
    GetMsgKey m 0 = Except.ok (GoString.owned ((w.set 0 0).set 1 0)) := by
  have h2 : GetMsgKey m 0 =
      Except.ok (GoString.owned ((w.set 0 0).set 1 0)) := by
    simp [GetMsgKey, BytesToStringUnsafe, h]
  refine ⟨?_, h2⟩
  rw [getMsgKeyWithBytesSalt_fst_ok m w h [] st, h2]
  simp

/-- Witness for C9 at `msg1234`. -/
theorem msgKey_zero_salt_agree_witness :
    (Msg.pack msg1234 = Except.ok [0x12, 0x34, 0x00, 0x00] ∧
     2 ≤ ([0x12, 0x34, 0x00, 0x00] : List Nat).length) ∧
    ((GetMsgKeyWithBytesSalt msg1234 [] emptyPool).1 = GetMsgKey msg1234 0 ∧
     GetMsgKey msg1234 0 =
       Except.ok (GoString.owned
         ((([0x12, 0x34, 0x00, 0x00] : List Nat).set 0 0).set 1 0))) :=
  ⟨⟨rfl, by decide⟩,
   msgKey_zero_salt_agree msg1234 [0x12, 0x34, 0x00, 0x00] rfl (by decide)
     emptyPool⟩

/-- A message whose wire encoding is `[0x00, 0x00, 0x00, 0x00, 0xFF]`. -/
def msgBodyFF : Msg := ⟨Except.ok [0x00, 0x00, 0x00, 0x00, 0xFF]⟩

/-- A message whose wire encoding is `[0x00, 0x00, 0x00, 0x00]`. -/
def msgBody0 : Msg := ⟨Except.ok [0x00, 0x00, 0x00, 0x00]⟩

/-- C6 counterexample: the pairs `(msgBodyFF, [])` and `(msgBody0, [0xFF])`
differ after id normalization — their id-zeroed wires differ and their
salts differ — yet `GetMsgKeyWithBytesSalt` maps both to the same key,
because the wire bytes and the salt are concatenated with no delimiter, so
a trailing wire byte is indistinguishable from a salt byte. -/
theorem msgKey_concat_ambiguity_cex :
    ((([0x00, 0x00, 0x00, 0x00, 0xFF] : List Nat).set 0 0).set 1 0 ≠
       ((([0x00, 0x00, 0x00, 0x00] : List Nat).set 0 0).set 1 0) ∧
     ([] : List Nat) ≠ [0xFF] ∧
     Msg.pack msgBodyFF = Except.ok [0x00, 0x00, 0x00, 0x00, 0xFF] ∧
     Msg.pack msgBody0 = Except.ok [0x00, 0x00, 0x00, 0x00]) ∧
    (GetMsgKeyWithBytesSalt msgBodyFF [] emptyPool).1 =
      (GetMsgKeyWithBytesSalt msgBody0 [0xFF] emptyPool).1 := by
  refine ⟨⟨by decide, by decide, rfl, rfl⟩, ?_⟩
  rw [getMsgKeyWithBytesSalt_fst_ok msgBodyFF
      [0x00, 0x00, 0x00, 0x00, 0xFF] rfl [] emptyPool,
    getMsgKeyWithBytesSalt_fst_ok msgBody0
      [0x00, 0x00, 0x00, 0x00] rfl [0xFF] emptyPool]
  rfl

/-- C6 amended: for two `GetMsgKeyWithBytesSalt` inputs whose salts have
the same length, if the pairs differ after id normalization (the id-zeroed
wires differ or the salts differ), the returned keys are distinct. -/
theorem msgKeyBytesSalt_injective_same_salt_len (m1 m2 : Msg)
    (w1 w2 s1 s2 : List Nat)
    (h1 : Msg.pack m1 = Except.ok w1) (h2 : Msg.pack m2 = Except.ok w2)
    (hslen : s1.length = s2.length)
    (hne : (w1.set 0 0).set 1 0 ≠ (w2.set 0 0).set 1 0 ∨ s1 ≠ s2)
    (st1 st2 : PoolState) :
    (GetMsgKeyWithBytesSalt m1 s1 st1).1 ≠
      (GetMsgKeyWithBytesSalt m2 s2 st2).1 := by
  rw [getMsgKeyWithBytesSalt_fst_ok m1 w1 h1 s1 st1,
    getMsgKeyWithBytesSalt_fst_ok m2 w2 h2 s2 st2]
  intro heq
  simp only [Except.ok.injEq, GoString.owned.injEq] at heq
  obtain ⟨hw, hs⟩ := List.append_inj' heq hslen
  rcases hne with hne | hne
  · exact hne hw
  · exact hne hs

/-- Witness for the amended C6: the same message with the two distinct
one-byte salts `"A"` and `"B"` yields distinct keys. -/
theorem msgKeyBytesSalt_injective_same_salt_len_witness :
    (Msg.pack msg1234 = Except.ok [0x12, 0x34, 0x00, 0x00] ∧
     ([65] : List Nat).length = ([66] : List Nat).length ∧
     ([65] : List Nat) ≠ [66]) ∧
    (GetMsgKeyWithBytesSalt msg1234 [65] emptyPool).1 ≠
      (GetMsgKeyWithBytesSalt msg1234 [66] emptyPool).1 :=
  ⟨⟨rfl, by decide, by decide⟩,
   msgKeyBytesSalt_injective_same_salt_len msg1234 msg1234
     [0x12, 0x34, 0x00, 0x00] [0x12, 0x34, 0x00, 0x00] [65] [66] rfl rfl
     (by decide) (Or.inr (by decide)) emptyPool emptyPool⟩

theorem msgKeyBytesSalt_key_owned (m : Msg) (salt : List Nat)
    (st st1 : PoolState) (k : GoString)
    (h : GetMsgKeyWithBytesSalt m salt st = (Except.ok k, st1)) :
    ∃ bs, k = GoString.owned bs := by
  have hfst : (GetMsgKeyWithBytesSalt m salt st).1 = Except.ok k := by
    rw [h]
  cases hp : m.pack with
  | error e =>
    rw [getMsgKeyWithBytesSalt_error m e hp salt st] at hfst
    simp at hfst
  | ok w =>
    rw [getMsgKeyWithBytesSalt_fst_ok m w hp salt st] at hfst
    injection hfst with h2
    exact ⟨_, h2.symm⟩

/-- C8: the key returned by `GetMsgKeyWithBytesSalt` is an owned copy that
does not alias the pooled wire buffer: after the call returns (its pooled
buffer released) and an unrelated subsequent call possibly reuses and
overwrites that buffer, the previously returned key's byte content is
unchanged. -/
theorem msgKeyBytesSalt_owned_copy (m m2 : Msg) (salt salt2 : List Nat)
    (st st1 : PoolState) (k : GoString)
    (h : GetMsgKeyWithBytesSalt m salt st = (Except.ok k, st1)) :
    readString ((GetMsgKeyWithBytesSalt m2 salt2 st1).2).heap k =
      readString st1.heap k := by
  obtain ⟨bs, rfl⟩ := msgKeyBytesSalt_key_owned m salt st st1 k h
  rfl

/-- Witness for C8: the first call returns key `[0,0,0,0,0xFF]` and a pool
whose buffer 0 holds `[0,0,0,0]`; a second call then reuses and overwrites
buffer 0, and the first key's content is unchanged. -/
theorem msgKeyBytesSalt_owned_copy_witness :
    GetMsgKeyWithBytesSalt msg1234 [0xFF] emptyPool =
      (Except.ok (GoString.owned [0x00, 0x00, 0x00, 0x00, 0xFF]),
        (⟨[[0, 0, 0, 0]], [0], 0⟩ : PoolState)) ∧
    readString
        ((GetMsgKeyWithBytesSalt msgBodyFF []
          (⟨[[0, 0, 0, 0]], [0], 0⟩ : PoolState)).2).heap
        (GoString.owned [0x00, 0x00, 0x00, 0x00, 0xFF]) =
      readString (⟨[[0, 0, 0, 0]], [0], 0⟩ : PoolState).heap
        (GoString.owned [0x00, 0x00, 0x00, 0x00, 0xFF]) :=
  ⟨by decide,
   msgKeyBytesSalt_owned_copy msg1234 msgBodyFF [0xFF] [] emptyPool
     (⟨[[0, 0, 0, 0]], [0], 0⟩ : PoolState)
     (GoString.owned [0x00, 0x00, 0x00, 0x00, 0xFF]) (by decide)⟩

theorem strIndex_spec (s pat : List Char) (i : Nat)
    (h : strIndex s pat = some i) :
    pat.isPrefixOf (s.drop i) = true ∧
    ∀ j, j < i → pat.isPrefixOf (s.drop j) = false := by
  induction s generalizing i with
  | nil =>
    by_cases hp : pat.isPrefixOf [] = true
    · rw [strIndex, if_pos hp] at h
      injection h with h
      subst h
      exact ⟨hp, by omega⟩
    · rw [strIndex, if_neg hp] at h
      cases h
  | cons c t ih =>
    by_cases hp : pat.isPrefixOf (c :: t) = true
    · rw [strIndex, if_pos hp] at h
      injection h with h
      subst h
      exact ⟨hp, by omega⟩
    · rw [strIndex, if_neg hp] at h
      simp only [Option.map_eq_some'] at h
      obtain ⟨i1, hi1, rfl⟩ := h
      obtain ⟨hpre, hmin⟩ := ih i1 hi1
      refine ⟨by simpa using hpre, ?_⟩
      intro j hj
      cases j with
      | zero => simpa using (Bool.not_eq_true _).mp hp
      | succ j1 =>
        simpa using hmin j1 (by omega)

theorem take_append_of_prefix_at (s pat : List Char) (i : Nat)
    (hpre : pat.isPrefixOf (s.drop i) = true) :
    s.take i ++ pat ++ s.drop (i + pat.length) = s := by
  have hp : pat <+: s.drop i := by simpa using hpre
  obtain ⟨t, ht⟩ := hp
  have htail : s.drop (i + pat.length) = t := by
    rw [← List.drop_drop, ← ht, List.drop_left]
  rw [htail, List.append_assoc, ht, List.take_append_drop]

/-- C10: `SplitString2` with an empty symbol returns `("", s, true)`; and
whenever it returns `ok = true` with a non-empty symbol, the concatenation
`s1 ++ symbol ++ s2` of the returned parts equals `s`, and `s1` is the
prefix of `s` before the first occurrence of `symbol`: no occurrence of
`symbol` starts before the end of `s1`. -/
theorem splitString2_correct (s symbol : List Char) :
    SplitString2 s [] = ([], s, true) ∧
    (symbol ≠ [] → (SplitString2 s symbol).2.2 = true →
      (SplitString2 s symbol).1 ++ symbol ++ (SplitString2 s symbol).2.1 =
        s ∧
      ∀ j, j < (SplitString2 s symbol).1.length →
        symbol.isPrefixOf (s.drop j) = false) := by
  refine ⟨rfl, ?_⟩
  intro hsym hok
  have hlen : ¬symbol.length = 0 := by simpa using hsym
  rw [SplitString2, if_neg hlen] at hok ⊢
  cases hidx : strIndex s symbol with
  | none =>
    rw [hidx] at hok
    simp at hok
  | some i =>
    dsimp only
    obtain ⟨hpre, hmin⟩ := strIndex_spec s symbol i hidx
    refine ⟨take_append_of_prefix_at s symbol i hpre, ?_⟩
    intro j hj
    have hj2 : j < i := by
      rw [List.length_take] at hj
      omega
    exact hmin j hj2

/-- Witness for C10 at `s = "ab:c"`, `symbol = ":"`. -/
theorem splitString2_correct_witness :
    SplitString2 ['a', 'b', ':', 'c'] [] = ([], ['a', 'b', ':', 'c'], true) ∧
    (([':'] : List Char) ≠ [] ∧
      (SplitString2 ['a', 'b', ':', 'c'] [':']).2.2 = true) ∧
    ((SplitString2 ['a', 'b', ':', 'c'] [':']).1 ++ [':'] ++
        (SplitString2 ['a', 'b', ':', 'c'] [':']).2.1 =
          ['a', 'b', ':', 'c'] ∧
     ∀ j, j < (SplitString2 ['a', 'b', ':', 'c'] [':']).1.length →
       ([':'] : List Char).isPrefixOf
         ((['a', 'b', ':', 'c'] : List Char).drop j) = false) :=
  ⟨(splitString2_correct ['a', 'b', ':', 'c'] [':']).1,
   ⟨by decide, by decide⟩,
   (splitString2_correct ['a', 'b', ':', 'c'] [':']).2 (by decide)
     (by decide)⟩

end Mosdns
